import Mathlib

/-!
Verification of the `commit-as` tool (`src/commit_as.py`) against its
natural-language specification.

Modelling conventions:
* Python strings are modelled as `List Char` (`Str`); `str.split(";")` is
  modelled by `split ';'`, which follows Python's semantics for a
  non-empty explicit separator (the empty string splits to `[""]`).
* The sqlite table `users(id INTEGER PRIMARY KEY, key TEXT, name TEXT,
  email_address TEXT)` is modelled as a list of `User` rows in insertion
  order.  Each SQL statement the program issues is a constructor of
  `SqlStmt`, interpreted by `execStmt : SqlStmt → Table → List User × Table`
  returning the fetched rows and the table after the statement.  `INSERT`
  auto-assigns `id` as max existing id + 1 (sqlite rowid assignment);
  `SELECT ... WHERE` returns matching rows in stored (rowid) order and
  `fetchone` is `List.head?`.
* `KnownUserDB` methods thread the database state explicitly; reads return
  `result × KnownUserDB`.
* `main` is modelled by `mainRun`, a function from parsed CLI arguments,
  the initial database and the exit status of the spawned external `git`
  process, to the trace of observable events (store operations, prints,
  process spawns), the final database, and the process exit status.
  Python's bare `sys.exit()` exits with status 0, and falling off the end
  of `main` also exits with status 0.
-/

namespace CommitAs

/-- Python strings, as lists of characters. -/
abbrev Str := List Char

/-- Auxiliary loop for `split`: `acc` holds the current field reversed. -/
def splitAux (sep : Char) : Str → Str → List Str
  | [], acc => [acc.reverse]
  | c :: rest, acc =>
    if c = sep then acc.reverse :: splitAux sep rest []
    else splitAux sep rest (c :: acc)

/-- Python `s.split(sep)` for a single-character separator. -/
def split (sep : Char) (s : Str) : List Str :=
  splitAux sep s []

/-- `User` dataclass of `commit_as.py`. -/
structure User where
  id_ : Nat
  key : Str
  name : Str
  email_address : Str
deriving DecidableEq, Repr

/-- The data carried by the `ValueError` raised by
`User.from_semicolon_separated_str`: the message interpolates the number
of fields found and the list of tokens. -/
structure ParseError where
  count : Nat
  tokens : List Str
deriving DecidableEq, Repr

/-- `User.from_semicolon_separated_str`: split on `";"`; two tokens give
`key = name = tokens[0]`, `email = tokens[1]`; three tokens give
`key = tokens[0]`, `name = tokens[1]`, `email = tokens[2]`; any other
token count raises `ValueError` reporting the count and the tokens. -/
def User.from_semicolon_separated_str (text : Str) : Except ParseError User :=
  match split ';' text with
  | [a, b] => .ok ⟨0, a, a, b⟩
  | [a, b, c] => .ok ⟨0, a, b, c⟩
  | tokens => .error ⟨tokens.length, tokens⟩

/-- The rows of the sqlite `users` table, in rowid (insertion) order. -/
abbrev Table := List User

/-- Largest id present in the table (0 when empty); sqlite assigns
`max + 1` as the next rowid for an `INTEGER PRIMARY KEY` column. -/
def maxId (t : Table) : Nat :=
  t.foldr (fun u m => max u.id_ m) 0

/-- The SQL statements issued by `KnownUserDB`. -/
inductive SqlStmt where
  | createTablesStmt
  | insertUserStmt (key name email_address : Str)
  | deleteByIdStmt (id_ : Nat)
  | deleteByKeyStmt (key : Str)
  | selectByIdStmt (id_ : Nat)
  | selectByKeyStmt (key : Str)
  | selectAllStmt
deriving DecidableEq, Repr

/-- Interpreter for the SQL statements over the row model: returns the
fetched rows and the table after the statement.  `CREATE TABLE IF NOT
EXISTS` / `CREATE INDEX` touch only the schema, which the row model does
not represent.  `SELECT` returns rows without modifying the table, in
stored order (the `user_key` index orders equal keys by rowid). -/
def execStmt : SqlStmt → Table → List User × Table
  | .createTablesStmt, t => ([], t)
  | .insertUserStmt key name email_address, t =>
      ([], t ++ [⟨maxId t + 1, key, name, email_address⟩])
  | .deleteByIdStmt id_, t => ([], t.filter (fun u => u.id_ != id_))
  | .deleteByKeyStmt key, t => ([], t.filter (fun u => u.key != key))
  | .selectByIdStmt id_, t => (t.filter (fun u => u.id_ == id_), t)
  | .selectByKeyStmt key, t => (t.filter (fun u => u.key == key), t)
  | .selectAllStmt, t => (t, t)

/-- `KnownUserDB`: the path the database file was opened from, and the
rows of the `users` table. -/
structure KnownUserDB where
  path : Str
  users : Table
deriving DecidableEq, Repr

/-- `KnownUserDB.create_tables`. -/
def create_tables (db : KnownUserDB) : KnownUserDB :=
  { db with users := (execStmt .createTablesStmt db.users).2 }

/-- `KnownUserDB.add_user`. -/
def add_user (db : KnownUserDB) (key name email_address : Str) : KnownUserDB :=
  { db with users := (execStmt (.insertUserStmt key name email_address) db.users).2 }

/-- `KnownUserDB.delete` (by id). -/
def delete (db : KnownUserDB) (id_ : Nat) : KnownUserDB :=
  { db with users := (execStmt (.deleteByIdStmt id_) db.users).2 }

/-- `KnownUserDB.delete_by_key`. -/
def delete_by_key (db : KnownUserDB) (key : Str) : KnownUserDB :=
  { db with users := (execStmt (.deleteByKeyStmt key) db.users).2 }

/-- `KnownUserDB.get` (by id): `fetchone` on the `SELECT`, `None` when no
row matches. -/
def get (db : KnownUserDB) (id_ : Nat) : Option User × KnownUserDB :=
  ((execStmt (.selectByIdStmt id_) db.users).1.head?,
   { db with users := (execStmt (.selectByIdStmt id_) db.users).2 })

/-- `KnownUserDB.get_user_by_key`: `fetchone` on the `SELECT`, `None`
when no row matches. -/
def get_user_by_key (db : KnownUserDB) (key : Str) : Option User × KnownUserDB :=
  ((execStmt (.selectByKeyStmt key) db.users).1.head?,
   { db with users := (execStmt (.selectByKeyStmt key) db.users).2 })

/-- `KnownUserDB.get_all_users`: `fetchall` on the `SELECT`. -/
def get_all_users (db : KnownUserDB) : List User × KnownUserDB :=
  ((execStmt .selectAllStmt db.users).1,
   { db with users := (execStmt .selectAllStmt db.users).2 })

/-- The argument list built by `commit_as` (handed to `subprocess.run`):
the `if len(args) == 0 / else` of the source. -/
def commit_as_cmd (user : User) (args : List Str) : List Str :=
  if args.length = 0 then
    ["git".data, "-c".data, "user.name=".data ++ user.name, "-c".data,
     "user.email=".data ++ user.email_address, "commit".data]
  else
    ["git".data, "-c".data, "user.name=".data ++ user.name, "-c".data,
     "user.email=".data ++ user.email_address, "commit".data] ++ args

/-- The shell command string built by `set_user` (run with `shell=True`);
its `args` parameter is never used in the command. -/
def set_user_cmd (user : User) : Str :=
  "git config --global user.name ".data ++ user.name
    ++ "; git config --global user.email ".data ++ user.email_address

/-- The not-found message printed by `main` when the key is absent. -/
def notFoundMsg (key : Str) : Str :=
  "Cannot find user '".data ++ key ++ "' in the known users database.".data

/-- Observable events of one invocation: store operations via the
connection, prints, and external process spawns.  `disconnect` is in the
vocabulary because `KnownUserDB.disconnect` exists (and is the
`__exit__` of the context manager), so a trace can be inspected for it. -/
inductive Event where
  | connect
  | createTables
  | queryByKey (key : Str)
  | insertUser (key name email_address : Str)
  | deleteKey (key : Str)
  | queryAll
  | runGit (cmd : List Str) (gitExit : Nat)
  | runShell (cmd : Str) (gitExit : Nat)
  | printOut (msg : Str)
  | printParseError (e : ParseError)
  | printUser (u : User)
  | printNoUsers (path : Str)
  | disconnect
deriving DecidableEq, Repr

/-- The subcommands registered on the argument parser. -/
inductive Subcommand where
  | commit
  | set
  | add
  | remove
  | list
deriving DecidableEq, Repr

/-- The parsed command line as `main` consumes it: the subcommand, the
`--raw-user` flag, the positional arguments (`key`, and for `add` also
`name` and `email_address`), and the unrecognized arguments passed
through to the subprocess. -/
structure CliArgs where
  subcommand : Subcommand
  raw_user : Bool
  key : Str
  name : Str
  email_address : Str
  unknown_args : List Str
deriving DecidableEq, Repr

/-- Result of one invocation: the event trace, the final database, and
the process exit status. -/
structure MainResult where
  events : List Event
  db : KnownUserDB
  exitCode : Nat
deriving DecidableEq, Repr

/-- `main`, line by line after argument parsing.  `db.connect()` and
`db.create_tables()` run first on every path.  For `commit`/`set` the
identity is resolved from the raw literal or the store; resolution
failure prints and calls bare `sys.exit()` (exit status 0).  The source
never calls `db.disconnect()` on any path (the `with`-statement protocol
of `KnownUserDB` is unused by `main`), so no path emits `.disconnect`;
and the result of `subprocess.run` is discarded (`proc` is unused), so
`exitCode` is 0 on every path regardless of `gitExit`. -/
def mainRun (a : CliArgs) (db0 : KnownUserDB) (gitExit : Nat) : MainResult :=
  let db := create_tables db0
  match a.subcommand with
  | .commit | .set =>
    match
      (if a.raw_user then
        match User.from_semicolon_separated_str a.key with
        | .error e => ([Event.printParseError e], none)
        | .ok u => ([], some u)
      else
        match (get_user_by_key db a.key).1 with
        | none => ([Event.queryByKey a.key, Event.printOut (notFoundMsg a.key)], none)
        | some u => ([Event.queryByKey a.key], some u) : List Event × Option User)
    with
    | (evs, none) => ⟨[Event.connect, Event.createTables] ++ evs, db, 0⟩
    | (evs, some user) =>
      match a.subcommand with
      | .commit =>
        ⟨[Event.connect, Event.createTables] ++ evs
          ++ [Event.runGit (commit_as_cmd user a.unknown_args) gitExit], db, 0⟩
      | _ =>
        ⟨[Event.connect, Event.createTables] ++ evs
          ++ [Event.runShell (set_user_cmd user) gitExit], db, 0⟩
  | .add =>
    ⟨[Event.connect, Event.createTables, Event.insertUser a.key a.name a.email_address],
     add_user db a.key a.name a.email_address, 0⟩
  | .remove =>
    ⟨[Event.connect, Event.createTables, Event.deleteKey a.key],
     delete_by_key db a.key, 0⟩
  | .list =>
    ⟨[Event.connect, Event.createTables, Event.queryAll]
      ++ (if (get_all_users db).1.length = 0 then [Event.printNoUsers db.path]
          else (get_all_users db).1.map Event.printUser),
     db, 0⟩

/-! ### Helper lemmas -/

theorem splitAux_not_mem (sep : Char) :
    ∀ (s acc : Str), sep ∉ acc → ∀ t ∈ splitAux sep s acc, sep ∉ t := by
  intro s
  induction s with
  | nil =>
    intro acc hacc t ht
    simp only [splitAux, List.mem_singleton] at ht
    subst ht
    simpa using hacc
  | cons c rest ih =>
    intro acc hacc t ht
    by_cases hc : c = sep
    · simp only [splitAux, if_pos hc, List.mem_cons] at ht
      rcases ht with rfl | ht
      · simpa using hacc
      · exact ih [] (by simp) t ht
    · simp only [splitAux, if_neg hc] at ht
      refine ih (c :: acc) ?_ t ht
      simp only [List.mem_cons, not_or]
      exact ⟨fun h => hc h.symm, hacc⟩

theorem split_not_mem (sep : Char) (s : Str) : ∀ t ∈ split sep s, sep ∉ t :=
  splitAux_not_mem sep s [] (by simp)

theorem head?_filter_first {α : Type} {p : α → Bool} {l : List α} {a : α}
    (h : (l.filter p).head? = some a) :
    ∃ l1 l2, l = l1 ++ a :: l2 ∧ p a = true ∧ ∀ b ∈ l1, p b = false := by
  induction l with
  | nil => simp at h
  | cons x xs ih =>
    by_cases hx : p x
    · rw [List.filter_cons_of_pos hx] at h
      simp only [List.head?_cons, Option.some.injEq] at h
      subst h
      exact ⟨[], xs, rfl, hx, by simp⟩
    · rw [List.filter_cons_of_neg hx] at h
      obtain ⟨l1, l2, hl, hpa, hfst⟩ := ih h
      refine ⟨x :: l1, l2, by rw [hl]; rfl, hpa, ?_⟩
      intro b hb
      rcases List.mem_cons.mp hb with rfl | hb
      · exact Bool.eq_false_iff.mpr hx
      · exact hfst b hb

theorem foldr_max_eq (t : Table) (b : Nat) :
    t.foldr (fun u m => max u.id_ m) b = max (maxId t) b := by
  induction t with
  | nil => simp [maxId]
  | cons u us ih =>
    simp only [maxId, List.foldr_cons] at *
    rw [ih, Nat.max_assoc]

theorem maxId_append_singleton (t : Table) (u : User) :
    maxId (t ++ [u]) = max (maxId t) u.id_ := by
  unfold maxId
  rw [List.foldr_append, foldr_max_eq]
  simp [maxId]

theorem create_tables_id (db : KnownUserDB) : create_tables db = db := rfl

/-! ### Claim theorems -/

/-- C1, counterexample: the round trip is *not* independent of the
store's prior contents.  On a store already holding a record with key
`"a"` (name `"n1"`, email `"e1"`), `add("a","n2","e2")` followed by
`get_by_key("a")` returns the *old* record, whose name and email differ
from the values just added. -/
theorem round_trip_cex :
    (get_user_by_key (add_user ⟨[], [⟨1, "a".data, "n1".data, "e1".data⟩]⟩
        ("a".data) ("n2".data) ("e2".data)) ("a".data)).1
      = some ⟨1, "a".data, "n1".data, "e1".data⟩
    ∧ ("n1".data : Str) ≠ "n2".data ∧ ("e1".data : Str) ≠ "e2".data := by
  decide

/-- C1, amended: for all (key, name, email), on a store whose
`get_by_key(key)` currently returns none, `add(key, name, email)`
followed by `get_by_key(key)` returns a record whose name and email
match the values just added. -/
theorem round_trip_fresh_key (db : KnownUserDB) (key name email_address : Str)
    (h : (get_user_by_key db key).1 = none) :
    ∃ u, (get_user_by_key (add_user db key name email_address) key).1 = some u ∧
      u.name = name ∧ u.email_address = email_address := by
  refine ⟨⟨maxId db.users + 1, key, name, email_address⟩, ?_, rfl, rfl⟩
  simp only [get_user_by_key, execStmt, add_user] at *
  have hnil : db.users.filter (fun u => u.key == key) = [] := by
    cases hf : db.users.filter (fun u => u.key == key) with
    | nil => rfl
    | cons a l => rw [hf] at h; simp at h
  rw [List.filter_append, hnil]
  simp

/-- Witness for C1 (amended), at the empty store. -/
theorem round_trip_fresh_key_witness :
    ∃ u, (get_user_by_key (add_user ⟨[], []⟩ ("k".data) ("n".data) ("e".data))
        ("k".data)).1 = some u ∧
      u.name = "n".data ∧ u.email_address = "e".data :=
  round_trip_fresh_key ⟨[], []⟩ ("k".data) ("n".data) ("e".data) rfl

/-- C5: for every resolved identity and every list of extra arguments,
`commit_as` builds exactly
`["git", "-c", "user.name=<name>", "-c", "user.email=<email>", "commit"]`
followed by the extra arguments unchanged and in order. -/
theorem commit_invocation (user : User) (args : List Str) :
    commit_as_cmd user args =
      ["git".data, "-c".data, "user.name=".data ++ user.name, "-c".data,
       "user.email=".data ++ user.email_address, "commit".data] ++ args := by
  unfold commit_as_cmd
  cases args <;> simp

/-- C9: the read operations `get_user_by_key`, `get` (by id) and
`get_all_users` leave the database unchanged: they only execute `SELECT`
statements, whose interpretation returns rows without adding, removing
or modifying any stored record. -/
theorem reads_do_not_modify (db : KnownUserDB) (key : Str) (id_ : Nat) :
    (get_user_by_key db key).2 = db ∧ (get db id_).2 = db ∧
      (get_all_users db).2 = db :=
  ⟨rfl, rfl, rfl⟩

/-- C10: every record produced by a successful raw-literal parse has
key, name and email containing no semicolon: the fields are tokens of
the split on `';'`, and splitting never leaves the separator inside a
token. -/
theorem raw_parse_fields_semicolon_free (text : Str) (u : User)
    (h : User.from_semicolon_separated_str text = .ok u) :
    ';' ∉ u.key ∧ ';' ∉ u.name ∧ ';' ∉ u.email_address := by
  have htok := split_not_mem ';' text
  unfold User.from_semicolon_separated_str at h
  rcases hs : split ';' text with _ | ⟨a, _ | ⟨b, _ | ⟨c, _ | ⟨d, rest⟩⟩⟩⟩ <;>
    rw [hs] at h htok <;> simp only [] at h
  · exact absurd h (by simp)
  · exact absurd h (by simp)
  · obtain rfl : u = ⟨0, a, a, b⟩ := by
      cases h
      rfl
    exact ⟨htok a (by simp), htok a (by simp), htok b (by simp)⟩
  · obtain rfl : u = ⟨0, a, b, c⟩ := by
      cases h
      rfl
    exact ⟨htok a (by simp), htok b (by simp), htok c (by simp)⟩
  · exact absurd h (by simp)

/-- Witness for C10, at the raw literal `"a;b"`. -/
theorem raw_parse_fields_semicolon_free_witness :
    ';' ∉ ("a".data : Str) ∧ ';' ∉ ("a".data : Str) ∧ ';' ∉ ("b".data : Str) :=
  raw_parse_fields_semicolon_free ("a;b".data) ⟨0, "a".data, "a".data, "b".data⟩ rfl

/-- C2: splitting the raw literal on `';'` yields either exactly 2
fields (key = name = field 1, email = field 2) or exactly 3 fields
(key = field 1, name = field 2, email = field 3); any other field count
fails with an error reporting the exact count and the tokens, and in
that case the `commit`/`set` invocation performs no store lookup. -/
theorem raw_literal_parsing (text : Str) :
    (∀ a b, split ';' text = [a, b] →
      User.from_semicolon_separated_str text = .ok ⟨0, a, a, b⟩) ∧
    (∀ a b c, split ';' text = [a, b, c] →
      User.from_semicolon_separated_str text = .ok ⟨0, a, b, c⟩) ∧
    ((split ';' text).length ≠ 2 → (split ';' text).length ≠ 3 →
      User.from_semicolon_separated_str text =
        .error ⟨(split ';' text).length, split ';' text⟩ ∧
      ∀ sub db g k n e ua, sub = Subcommand.commit ∨ sub = Subcommand.set →
        Event.queryByKey k ∉
          (mainRun ⟨sub, true, text, n, e, ua⟩ db g).events) := by
  refine ⟨?_, ?_, ?_⟩
  · intro a b hs
    unfold User.from_semicolon_separated_str
    rw [hs]
  · intro a b c hs
    unfold User.from_semicolon_separated_str
    rw [hs]
  · intro h2 h3
    have herr : User.from_semicolon_separated_str text =
        .error ⟨(split ';' text).length, split ';' text⟩ := by
      unfold User.from_semicolon_separated_str
      rcases hs : split ';' text with _ | ⟨a, _ | ⟨b, _ | ⟨c, _ | ⟨d, rest⟩⟩⟩⟩
      · rfl
      · rfl
      · exact absurd (by rw [hs]; rfl) h2
      · exact absurd (by rw [hs]; rfl) h3
      · rfl
    refine ⟨herr, ?_⟩
    intro sub db g k n e ua hsub
    rcases hsub with rfl | rfl <;> simp [mainRun, herr]

/-- Witness for C2, at the raw literal `"a;b;c;d"` (4 fields): parsing
fails reporting count 4 and the tokens, and a raw-mode `commit`
invocation with that literal performs no store lookup. -/
theorem raw_literal_parsing_witness :
    User.from_semicolon_separated_str ("a;b;c;d".data) =
      .error ⟨4, ["a".data, "b".data, "c".data, "d".data]⟩ ∧
    Event.queryByKey ("a".data) ∉
      (mainRun ⟨Subcommand.commit, true, "a;b;c;d".data, [], [], []⟩
        ⟨[], []⟩ 0).events := by
  have h := (raw_literal_parsing ("a;b;c;d".data)).2.2 (by decide) (by decide)
  exact ⟨by rw [h.1]; rfl,
    h.2 Subcommand.commit ⟨[], []⟩ 0 ("a".data) [] [] [] (Or.inl rfl)⟩

/-- C3: adding the same key twice appends two distinct records that both
carry that key (both retrievable via `get_all_users`), and
`get_user_by_key` returns exactly the first record with that key in
storage insertion order. -/
theorem duplicate_keys (db : KnownUserDB) (key n1 e1 n2 e2 : Str) :
    ∃ r1 r2,
      (get_all_users (add_user (add_user db key n1 e1) key n2 e2)).1
        = (get_all_users db).1 ++ [r1, r2] ∧
      r1 ≠ r2 ∧ r1.key = key ∧ r2.key = key ∧
      r1.name = n1 ∧ r1.email_address = e1 ∧
      r2.name = n2 ∧ r2.email_address = e2 ∧
      ∃ u l1 l2,
        (get_user_by_key (add_user (add_user db key n1 e1) key n2 e2) key).1
          = some u ∧
        (get_all_users (add_user (add_user db key n1 e1) key n2 e2)).1
          = l1 ++ u :: l2 ∧
        u.key = key ∧ ∀ v ∈ l1, v.key ≠ key := by
  set m := maxId db.users with hmdef
  set r1 : User := ⟨m + 1, key, n1, e1⟩ with hr1
  set r2 : User := ⟨m + 2, key, n2, e2⟩ with hr2
  have hm : maxId (db.users ++ [r1]) = m + 1 := by
    rw [maxId_append_singleton]
    exact Nat.max_eq_right (Nat.le_succ m)
  have husers : (add_user (add_user db key n1 e1) key n2 e2).users
      = (db.users ++ [r1]) ++ [r2] := by
    simp only [add_user, execStmt]
    rw [hm]
  refine ⟨r1, r2, ?_, ?_, rfl, rfl, rfl, rfl, rfl, rfl, ?_⟩
  · simp only [get_all_users, execStmt]
    rw [husers, List.append_assoc]
    rfl
  · intro h
    have : m + 1 = m + 2 := congrArg User.id_ h
    omega
  · have hr1mem : r1 ∈ ((db.users ++ [r1]) ++ [r2]).filter
        (fun u => u.key == key) := by
      refine List.mem_filter.mpr ⟨?_, ?_⟩
      · simp
      · simp [hr1]
    obtain ⟨u, hu⟩ : ∃ u,
        (((db.users ++ [r1]) ++ [r2]).filter (fun u => u.key == key)).head?
          = some u := by
      cases hf : ((db.users ++ [r1]) ++ [r2]).filter (fun u => u.key == key) with
      | nil => rw [hf] at hr1mem; cases hr1mem
      | cons x xs => exact ⟨x, rfl⟩
    obtain ⟨l1, l2, hl, hpu, hfirst⟩ := head?_filter_first hu
    refine ⟨u, l1, l2, ?_, ?_, ?_, ?_⟩
    · simp only [get_user_by_key, execStmt]
      rw [husers]
      exact hu
    · simp only [get_all_users, execStmt]
      rw [husers]
      exact hl
    · exact eq_of_beq hpu
    · intro v hv heq
      have h := hfirst v hv
      rw [heq] at h
      simp at h

/-- Witness for C3, at the empty store with key `"a"`. -/
theorem duplicate_keys_witness :
    ∃ r1 r2,
      (get_all_users (add_user (add_user ⟨[], []⟩ ("a".data) ("n1".data) ("e1".data))
          ("a".data) ("n2".data) ("e2".data))).1
        = (get_all_users (⟨[], []⟩ : KnownUserDB)).1 ++ [r1, r2] ∧
      r1 ≠ r2 ∧ r1.key = "a".data ∧ r2.key = "a".data ∧
      r1.name = "n1".data ∧ r1.email_address = "e1".data ∧
      r2.name = "n2".data ∧ r2.email_address = "e2".data ∧
      ∃ u l1 l2,
        (get_user_by_key (add_user (add_user ⟨[], []⟩ ("a".data) ("n1".data) ("e1".data))
            ("a".data) ("n2".data) ("e2".data)) ("a".data)).1
          = some u ∧
        (get_all_users (add_user (add_user ⟨[], []⟩ ("a".data) ("n1".data) ("e1".data))
            ("a".data) ("n2".data) ("e2".data))).1
          = l1 ++ u :: l2 ∧
        u.key = "a".data ∧ ∀ v ∈ l1, v.key ≠ "a".data :=
  duplicate_keys ⟨[], []⟩ ("a".data) ("n1".data) ("e1".data) ("n2".data) ("e2".data)

/-- C4: `delete_by_key(key)` removes every record whose key matches and
no other: afterwards `get_user_by_key(key)` returns none, every
surviving record has a different key and was already stored, and every
previously stored record with a different key survives. -/
theorem delete_by_key_removes_all (db : KnownUserDB) (key : Str) :
    (get_user_by_key (delete_by_key db key) key).1 = none ∧
    (∀ u ∈ (get_all_users (delete_by_key db key)).1,
      u.key ≠ key ∧ u ∈ (get_all_users db).1) ∧
    (∀ u ∈ (get_all_users db).1, u.key ≠ key →
      u ∈ (get_all_users (delete_by_key db key)).1) := by
  refine ⟨?_, ?_, ?_⟩
  · simp only [get_user_by_key, delete_by_key, execStmt]
    have hnil : (db.users.filter (fun u => u.key != key)).filter
        (fun u => u.key == key) = [] := by
      rw [List.filter_eq_nil_iff]
      intro a ha
      have := (List.mem_filter.mp ha).2
      simpa using this
    rw [hnil]
    rfl
  · intro u hu
    simp only [get_all_users, delete_by_key, execStmt] at hu ⊢
    have h := List.mem_filter.mp hu
    exact ⟨by simpa using h.2, h.1⟩
  · intro u hu hne
    simp only [get_all_users, delete_by_key, execStmt] at hu ⊢
    exact List.mem_filter.mpr ⟨hu, by simpa using hne⟩

/-- Witness for C4: on a store holding two records with key `"a"` and
one with key `"b"`, deleting key `"a"` makes `get_user_by_key "a"`
return none while the `"b"` record survives. -/
theorem delete_by_key_removes_all_witness :
    (get_user_by_key (delete_by_key
        ⟨[], [⟨1, "a".data, "n".data, "e".data⟩, ⟨2, "a".data, "m".data, "f".data⟩,
              ⟨3, "b".data, "p".data, "g".data⟩]⟩ ("a".data)) ("a".data)).1 = none ∧
    (⟨3, "b".data, "p".data, "g".data⟩ : User) ∈
      (get_all_users (delete_by_key
        ⟨[], [⟨1, "a".data, "n".data, "e".data⟩, ⟨2, "a".data, "m".data, "f".data⟩,
              ⟨3, "b".data, "p".data, "g".data⟩]⟩ ("a".data))).1 := by
  have h := delete_by_key_removes_all
    ⟨[], [⟨1, "a".data, "n".data, "e".data⟩, ⟨2, "a".data, "m".data, "f".data⟩,
          ⟨3, "b".data, "p".data, "g".data⟩]⟩ ("a".data)
  exact ⟨h.1, h.2.2 ⟨3, "b".data, "p".data, "g".data⟩ (by decide) (by decide)⟩

/-- C6 (defect in the code): the external `git` process exits with
status 1, the `commit` invocation runs it, yet the tool's own exit
status is 0 — `main` discards the `subprocess.run` result, so the
non-zero child status is not propagated. -/
theorem exit_status_not_propagated :
    (mainRun ⟨Subcommand.commit, false, "a".data, [], [], []⟩
        ⟨[], [⟨1, "a".data, "A".data, "a@x".data⟩]⟩ 1).exitCode = 0 ∧
    Event.runGit (commit_as_cmd ⟨1, "a".data, "A".data, "a@x".data⟩ []) 1 ∈
      (mainRun ⟨Subcommand.commit, false, "a".data, [], [], []⟩
        ⟨[], [⟨1, "a".data, "A".data, "a@x".data⟩]⟩ 1).events := by
  decide

/-- C7: when the key is absent from the store (and `--raw-user` is not
given), a `commit`/`set` invocation queries the store, prints a
not-found message that contains the unresolved key, and exits without
running any external process. -/
theorem key_not_found (a : CliArgs) (db : KnownUserDB) (g : Nat)
    (hsub : a.subcommand = Subcommand.commit ∨ a.subcommand = Subcommand.set)
    (hraw : a.raw_user = false)
    (hmiss : (get_user_by_key db a.key).1 = none) :
    (mainRun a db g).events =
      [Event.connect, Event.createTables, Event.queryByKey a.key,
       Event.printOut (notFoundMsg a.key)] ∧
    (∃ pre post, notFoundMsg a.key = pre ++ a.key ++ post) ∧
    (∀ cmd c, Event.runGit cmd c ∉ (mainRun a db g).events) ∧
    (∀ s c, Event.runShell s c ∉ (mainRun a db g).events) := by
  obtain ⟨sub, raw, k, n, e, ua⟩ := a
  simp only at hsub hraw hmiss
  subst hraw
  have hev : (mainRun ⟨sub, false, k, n, e, ua⟩ db g).events =
      [Event.connect, Event.createTables, Event.queryByKey k,
       Event.printOut (notFoundMsg k)] := by
    rcases hsub with rfl | rfl <;>
      simp [mainRun, create_tables_id, hmiss]
  refine ⟨hev, ⟨"Cannot find user '".data,
    "' in the known users database.".data, rfl⟩, ?_, ?_⟩
  · intro cmd c
    rw [hev]
    simp
  · intro s c
    rw [hev]
    simp

/-- Witness for C7: `commit bob` against the empty store. -/
theorem key_not_found_witness :
    (mainRun ⟨Subcommand.commit, false, "bob".data, [], [], []⟩
        ⟨[], []⟩ 0).events =
      [Event.connect, Event.createTables, Event.queryByKey ("bob".data),
       Event.printOut (notFoundMsg ("bob".data))] ∧
    (∃ pre post, notFoundMsg ("bob".data) = pre ++ "bob".data ++ post) ∧
    (∀ cmd c, Event.runGit cmd c ∉
      (mainRun ⟨Subcommand.commit, false, "bob".data, [], [], []⟩
        ⟨[], []⟩ 0).events) ∧
    (∀ s c, Event.runShell s c ∉
      (mainRun ⟨Subcommand.commit, false, "bob".data, [], [], []⟩
        ⟨[], []⟩ 0).events) :=
  key_not_found ⟨Subcommand.commit, false, "bob".data, [], [], []⟩
    ⟨[], []⟩ 0 (Or.inl rfl) rfl rfl

/-- C8 (defect in the code): no invocation path ever emits
`disconnect` — `main` connects but never calls `db.disconnect()` (and
never enters the `with`-statement protocol of `KnownUserDB`), on
success and failure paths alike. -/
theorem disconnect_never_called (a : CliArgs) (db : KnownUserDB) (g : Nat) :
    Event.disconnect ∉ (mainRun a db g).events := by
  obtain ⟨sub, raw, k, n, e, ua⟩ := a
  cases sub
  case commit | set =>
    cases raw
    · cases h : (get_user_by_key (create_tables db) k).1 <;>
        simp [mainRun, h]
    · cases h : User.from_semicolon_separated_str k <;>
        simp [mainRun, h]
  case add => simp [mainRun]
  case remove => simp [mainRun]
  case list =>
    by_cases h : (get_all_users (create_tables db)).1.length = 0 <;>
      simp [mainRun, h]

end CommitAs
